import Mathlib

/-!
Verification of the complement-graph ("AntiGraph") adjacency layer from
`src/subclass/antigraph.ipynb`.

The Python class stores, per node, the set of nodes it is NOT connected to in
the dense graph (`self.adj`), and derives every query answer by the set
difference `set(self.adj) - set(self.adj[n]) - set([n])`.

Embedding choices:
* a Python dict is an association list with distinct keys kept in insertion
  order; `set(self.adj)` (the key universe) is the key list, and set values
  are lists whose membership is what matters;
* `set(self.adj)` and `set(self.nodes())` denote the same key universe of the
  store (`nodes()` iterates the node dict, whose keys coincide with the
  adjacency dict's keys), so both are embedded as `AntiGraph.nodes`;
* Python exceptions become `Except GraphError`: the bare `KeyError` raised by
  `self.adj[n]` inside `__getitem__` is `GraphError.keyError`, the
  `NetworkXError` raised by `neighbors` is `GraphError.nodeNotFound`;
* generators become eagerly materialised lists in yield order.
-/

namespace AntiGraphSpec

/-- The sparse store: per node, the list of nodes recorded as adjacent in the
sparse (non-edge) representation.  This is `self.adj` of the Python class. -/
structure AntiGraph where
  adj : List (Nat × List Nat)
deriving DecidableEq

/-- `set(self.adj)`: the node universe, the keys of the sparse store. -/
def AntiGraph.nodes (g : AntiGraph) : List Nat :=
  g.adj.map Prod.fst

/-- `all_edge_dict = {'weight': 1}`: the single canonical edge-attribute
record shared by every derived edge. -/
def all_edge_dict : List (String × Nat) :=
  [("weight", 1)]

/-- `d.get(k, 1)` on the shared attribute record `all_edge_dict`. -/
def edgeGet (k : String) : Nat :=
  (all_edge_dict.lookup k).getD 1

/-- Error kinds a query can signal. -/
inductive GraphError where
  | nodeNotFound : Nat → GraphError
  | keyError : Nat → GraphError
deriving DecidableEq

/-- `set(self.adj) - set(self.adj[n]) - set([n])` given the sparse set `s`
already looked up for `n`: the derived (dense-graph) neighbor set. -/
def derivedOf (g : AntiGraph) (s : List Nat) (n : Nat) : List Nat :=
  g.nodes.filter (fun v => decide (v ∉ s ∧ v ≠ n))

/-- The derived neighbor set of `n`, with the sparse set looked up in the
store (`[]` when `n` is absent; every use below is guarded by presence). -/
def derivedList (g : AntiGraph) (n : Nat) : List Nat :=
  derivedOf g ((g.adj.lookup n).getD []) n

/-- `AntiGraph.neighbors`: `iter(set(self.adj) - set(self.adj[n]) - set([n]))`,
with the `KeyError` from `self.adj[n]` caught and re-raised as the
`NetworkXError` "The node %s is not in the graph." -/
def AntiGraph.neighbors (g : AntiGraph) (n : Nat) : Except GraphError (List Nat) :=
  match g.adj.lookup n with
  | some s => .ok (derivedOf g s n)
  | none => .error (.nodeNotFound n)

/-- `AntiGraph.__getitem__`: `dict((node, self.all_edge_dict) for node in
set(self.adj) - set(self.adj[n]) - set([n]))`.  No `try/except` here: a
missing `n` surfaces the bare `KeyError` of `self.adj[n]`. -/
def AntiGraph.getitem (g : AntiGraph) (n : Nat) :
    Except GraphError (List (Nat × List (String × Nat))) :=
  match g.adj.lookup n with
  | some s => .ok ((derivedOf g s n).map (fun v => (v, all_edge_dict)))
  | none => .error (.keyError n)

/-- `AntiGraph.degree`, single-node path (`if nbunch in self`): builds
`nbrs = {v: all_edge_dict for v in set(self.adj) - set(self.adj[nbunch]) -
set([nbunch])}` and returns `len(nbrs) + (nbunch in nbrs)` when `weight` is
`None`, else `sum(nbrs[nbr].get(weight, 1) for nbr in nbrs) + (nbunch in nbrs
and nbrs[nbunch].get(weight, 1))`.  `none` means `n` is not a key, in which
case the Python code would fall through to the bulk path. -/
def AntiGraph.degree (g : AntiGraph) (n : Nat) (weight : Option String) : Option Nat :=
  match g.adj.lookup n with
  | none => none
  | some s =>
    let nbrs := derivedOf g s n
    match weight with
    | none => some (nbrs.length + (if n ∈ nbrs then 1 else 0))
    | some k => some ((nbrs.map (fun _ => edgeGet k)).sum +
        (if n ∈ nbrs then edgeGet k else 0))

/-- The `nodes_nbrs` generator of the bulk `degree` path: all nodes of the
store when `nbunch is None`, else `self.nbunch_iter(nbunch)`, which yields the
members of the container that are nodes of the store, in container order.
Either way each node is paired with its derived neighbor set computed against
the complete node universe. -/
def AntiGraph.nodes_nbrs (g : AntiGraph) (nbunch : Option (List Nat)) :
    List (Nat × List Nat) :=
  match nbunch with
  | none => g.nodes.map (fun n => (n, derivedList g n))
  | some S => (S.filter (fun n => decide (n ∈ g.nodes))).map
      (fun n => (n, derivedList g n))

/-- The `d_iter` generator returned by the bulk `degree` path: for each
`(n, nbrs)` of `nodes_nbrs` it yields `(n, len(nbrs) + (n in nbrs))` when
`weight` is `None`, else `(n, sum(nbrs[nbr].get(weight, 1) for nbr in nbrs) +
(n in nbrs and nbrs[n].get(weight, 1)))`. -/
def AntiGraph.d_iter (g : AntiGraph) (nbunch : Option (List Nat))
    (weight : Option String) : List (Nat × Nat) :=
  match weight with
  | none => (g.nodes_nbrs nbunch).map
      (fun p => (p.1, p.2.length + (if p.1 ∈ p.2 then 1 else 0)))
  | some k => (g.nodes_nbrs nbunch).map
      (fun p => (p.1, (p.2.map (fun _ => edgeGet k)).sum +
        (if p.1 ∈ p.2 then edgeGet k else 0)))

/-- The degree the bulk path reports for one node, written against the full
node universe of the store. -/
def degreeOfFull (g : AntiGraph) (n : Nat) : Nat :=
  (derivedList g n).length + (if n ∈ derivedList g n then 1 else 0)

/-- `AntiGraph.adjacency`: `for n in self.adj: yield (n, set(self.adj) -
set(self.adj[n]) - set([n]))`. -/
def AntiGraph.adjacency (g : AntiGraph) : List (Nat × List Nat) :=
  g.nodes.map (fun n => (n, derivedList g n))

/-- The concrete scenario of the spec: universe `{0,1,2,3}`, sparse store
(non-edges) `{0:{1}, 1:{0}, 2:{}, 3:{}}`. -/
def exampleStore : AntiGraph :=
  ⟨[(0, [1]), (1, [0]), (2, []), (3, [])]⟩

/-- Modelled from the spec: the explicit dense representation of the same
graph is not part of the repository (it lives in the external graph library),
so the dense graph is taken as its true-adjacency function `tA` and its degree
— "independently computed from an explicit dense representation" — is the size
of the true adjacency list of `n`. -/
def denseDegree (tA : Nat → List Nat) (n : Nat) : Nat :=
  (tA n).length

/-- The complement view of the dense graph `(V, tA)`: the sparse store records
for each node exactly the non-edges at that node, `V − {n} − tA n`. -/
def complementView (V : List Nat) (tA : Nat → List Nat) : AntiGraph :=
  ⟨V.map (fun n => (n, V.filter (fun v => decide (v ≠ n ∧ v ∉ tA n))))⟩

/-- A dense graph realising the concrete scenario, used as witness data. -/
def exDense : Nat → List Nat :=
  fun m =>
    if m = 0 then [2, 3]
    else if m = 1 then [2, 3]
    else if m = 2 then [0, 1, 3]
    else if m = 3 then [0, 1, 2]
    else []

/-! ### Helper lemmas -/

theorem lookup_eq_none_iff (l : List (Nat × List Nat)) (n : Nat) :
    l.lookup n = none ↔ n ∉ l.map Prod.fst := by
  induction l with
  | nil => simp
  | cons p t ih =>
    obtain ⟨k, v⟩ := p
    by_cases h : n = k
    · subst h
      simp
    · have hbk : (n == k) = false := by simp [h]
      simp [List.lookup_cons, hbk, ih, h]

theorem lookup_isSome_of_mem (l : List (Nat × List Nat)) (n : Nat)
    (h : n ∈ l.map Prod.fst) : ∃ s, l.lookup n = some s := by
  cases hl : l.lookup n with
  | none => exact absurd ((lookup_eq_none_iff l n).mp hl) (by simp [h])
  | some s => exact ⟨s, rfl⟩

theorem lookup_map_self (V : List Nat) (f : Nat → List Nat) (n : Nat)
    (hn : n ∈ V) : (V.map (fun m => (m, f m))).lookup n = some (f n) := by
  induction V with
  | nil => cases hn
  | cons a t ih =>
    by_cases h : n = a
    · subst h
      simp
    · have hbk : (n == a) = false := by simp [h]
      have hnt : n ∈ t := by
        rcases List.mem_cons.mp hn with h' | h'
        · exact absurd h' h
        · exact h'
      simp [List.lookup_cons, hbk, ih hnt]

theorem mem_derivedOf (g : AntiGraph) (s : List Nat) (n v : Nat) :
    v ∈ derivedOf g s n ↔ v ∈ g.nodes ∧ v ∉ s ∧ v ≠ n := by
  simp [derivedOf, List.mem_filter]

theorem self_not_mem_derivedOf (g : AntiGraph) (s : List Nat) (n : Nat) :
    n ∉ derivedOf g s n := by
  intro h
  exact ((mem_derivedOf g s n n).mp h).2.2 rfl

theorem nodup_derivedOf (g : AntiGraph) (s : List Nat) (n : Nat)
    (hnd : g.nodes.Nodup) : (derivedOf g s n).Nodup :=
  hnd.filter _

theorem derivedList_eq (g : AntiGraph) (n : Nat) (s : List Nat)
    (hs : g.adj.lookup n = some s) : derivedList g n = derivedOf g s n := by
  simp [derivedList, hs]

theorem sum_map_one (l : List Nat) : (l.map (fun _ => (1 : Nat))).sum = l.length := by
  induction l with
  | nil => rfl
  | cons a t ih => simp [ih, Nat.add_comm]

theorem edgeGet_eq_one (k : String) : edgeGet k = 1 := by
  unfold edgeGet all_edge_dict
  cases h : (k == "weight") with
  | true => simp [List.lookup_cons, h]
  | false => simp [List.lookup_cons, h]

/-! ### Claim theorems -/

/-- C1: for every node `n` that is a key of the sparse adjacency map,
`neighbors n` succeeds with a duplicate-free sequence whose members are
exactly `AllNodes − SparseSet(n) − {n}`. -/
theorem neighbors_complement (g : AntiGraph) (n : Nat) (s : List Nat)
    (hnd : g.nodes.Nodup) (hs : g.adj.lookup n = some s) :
    ∃ l, g.neighbors n = .ok l ∧ l.Nodup ∧
      ∀ v, (v ∈ l ↔ v ∈ g.nodes ∧ v ∉ s ∧ v ≠ n) := by
  refine ⟨derivedOf g s n, ?_, nodup_derivedOf g s n hnd, mem_derivedOf g s n⟩
  simp [AntiGraph.neighbors, hs]

theorem neighbors_complement_witness :
    exampleStore.nodes.Nodup ∧ exampleStore.adj.lookup 0 = some [1] ∧
      ∃ l, exampleStore.neighbors 0 = .ok l ∧ l.Nodup ∧
        ∀ v, (v ∈ l ↔ v ∈ exampleStore.nodes ∧ v ∉ [1] ∧ v ≠ 0) :=
  ⟨by decide, by decide,
    neighbors_complement exampleStore 0 [1] (by decide) (by decide)⟩

/-- C2: the single-node unweighted degree equals
`len(derivedSet) + (1 if n in derivedSet else 0)`, and on the concrete
scenario (universe `{0,1,2,3}`, non-edges `{0:{1}, 1:{0}, 2:{}, 3:{}}`) the
degrees are `0→2, 1→2, 2→3, 3→3` with sum `10`. -/
theorem degree_formula (g : AntiGraph) (n : Nat) (s : List Nat)
    (hs : g.adj.lookup n = some s) :
    g.degree n none = some ((derivedOf g s n).length +
      (if n ∈ derivedOf g s n then 1 else 0)) ∧
    exampleStore.degree 0 none = some 2 ∧
    exampleStore.degree 1 none = some 2 ∧
    exampleStore.degree 2 none = some 3 ∧
    exampleStore.degree 3 none = some 3 ∧
    ((exampleStore.d_iter none none).map Prod.snd).sum = 10 := by
  refine ⟨?_, by decide, by decide, by decide, by decide, by decide⟩
  simp [AntiGraph.degree, hs]

theorem degree_formula_witness :
    exampleStore.adj.lookup 0 = some [1] ∧
      exampleStore.degree 0 none = some ((derivedOf exampleStore [1] 0).length +
        (if 0 ∈ derivedOf exampleStore [1] 0 then 1 else 0)) :=
  ⟨by decide, (degree_formula exampleStore 0 [1] (by decide)).1⟩

/-- C3: for every node of the store and every weight key `k`, the weighted
degree equals the unweighted degree, both in the single-node form and,
pairwise, in the bulk form (for any node bunch). -/
theorem degree_weight_irrelevant (g : AntiGraph) (n : Nat) (k : String)
    (nb : Option (List Nat)) (h : n ∈ g.nodes) :
    g.degree n (some k) = g.degree n none ∧
    g.d_iter nb (some k) = g.d_iter nb none := by
  constructor
  · obtain ⟨s, hs⟩ := lookup_isSome_of_mem g.adj n h
    simp [AntiGraph.degree, hs, edgeGet_eq_one, sum_map_one]
  · simp [AntiGraph.d_iter, edgeGet_eq_one, sum_map_one]

theorem degree_weight_irrelevant_witness :
    0 ∈ exampleStore.nodes ∧
      (exampleStore.degree 0 (some "color") = exampleStore.degree 0 none ∧
        exampleStore.d_iter (some [2, 0]) (some "color") =
          exampleStore.d_iter (some [2, 0]) none) :=
  ⟨by decide, degree_weight_irrelevant exampleStore 0 "color" (some [2, 0]) (by decide)⟩

theorem map_fst_pairs (l : List Nat) :
    (l.map (fun v => (v, all_edge_dict))).map Prod.fst = l := by
  induction l with
  | nil => rfl
  | cons a t ih => simp [ih]

theorem mem_nodes_nbrs (g : AntiGraph) (nb : Option (List Nat))
    (q : Nat × List Nat) (hq : q ∈ g.nodes_nbrs nb) :
    q.2 = derivedList g q.1 := by
  cases nb with
  | none =>
    obtain ⟨n, _, rfl⟩ := List.mem_map.mp hq
    rfl
  | some S =>
    obtain ⟨n, _, rfl⟩ := List.mem_map.mp hq
    rfl

/-- C10: a node is never a member of its own derived neighbor set, so the
`n in nbrs` self-loop adjustment is never taken: the single-node unweighted
degree is exactly the size of the derived set, and every pair emitted by the
bulk unweighted form carries exactly that size. -/
theorem degree_self_loop_dead (g : AntiGraph) (n : Nat) (s : List Nat)
    (hs : g.adj.lookup n = some s) :
    n ∉ derivedOf g s n ∧
    g.degree n none = some ((derivedOf g s n).length) ∧
    ∀ nb : Option (List Nat), ∀ p ∈ g.d_iter nb none,
      p.1 ∉ derivedList g p.1 ∧ p.2 = (derivedList g p.1).length := by
  refine ⟨self_not_mem_derivedOf g s n, ?_, ?_⟩
  · simp [AntiGraph.degree, hs, self_not_mem_derivedOf]
  · intro nb p hp
    simp only [AntiGraph.d_iter] at hp
    obtain ⟨q, hq, rfl⟩ := List.mem_map.mp hp
    have h2 : q.2 = derivedList g q.1 := mem_nodes_nbrs g nb q hq
    have hself : q.1 ∉ derivedList g q.1 :=
      self_not_mem_derivedOf g ((g.adj.lookup q.1).getD []) q.1
    refine ⟨hself, ?_⟩
    simp [h2, hself]

theorem degree_self_loop_dead_witness :
    exampleStore.adj.lookup 0 = some [1] ∧
      0 ∉ derivedOf exampleStore [1] 0 ∧
      exampleStore.degree 0 none = some ((derivedOf exampleStore [1] 0).length) :=
  ⟨by decide, (degree_self_loop_dead exampleStore 0 [1] (by decide)).1,
    (degree_self_loop_dead exampleStore 0 [1] (by decide)).2.1⟩

/-- C7: `neighbors n` signals `NodeNotFound` exactly when `n` is absent from
the store's node universe; a present node with an empty sparse set succeeds. -/
theorem neighbors_error_iff (g : AntiGraph) (n : Nat) :
    (g.neighbors n = .error (.nodeNotFound n) ↔ n ∉ g.nodes) ∧
    (g.adj.lookup n = some [] → ∃ l, g.neighbors n = .ok l) := by
  constructor
  · constructor
    · intro h hmem
      obtain ⟨s, hs⟩ := lookup_isSome_of_mem g.adj n hmem
      simp [AntiGraph.neighbors, hs] at h
    · intro hmem
      have hl : g.adj.lookup n = none := (lookup_eq_none_iff g.adj n).mpr hmem
      simp [AntiGraph.neighbors, hl]
  · intro h
    exact ⟨derivedOf g [] n, by simp [AntiGraph.neighbors, h]⟩

theorem neighbors_error_iff_witness :
    exampleStore.adj.lookup 2 = some [] ∧
      ∃ l, exampleStore.neighbors 2 = .ok l :=
  ⟨by decide, (neighbors_error_iff exampleStore 2).2 (by decide)⟩

/-- C8 counterexample: node `7` is absent from the concrete store, yet
`__getitem__` fails with the bare lookup failure (`KeyError`), not with the
`NodeNotFound` kind, so its failure behaviour differs from `neighbors`. -/
theorem getitem_keyError_cex :
    7 ∉ exampleStore.nodes ∧
    exampleStore.getitem 7 = .error (.keyError 7) ∧
    ∀ m : Nat, exampleStore.getitem 7 ≠ .error (.nodeNotFound m) := by
  refine ⟨by decide, rfl, ?_⟩
  intro m h
  have h' := h.symm.trans (rfl : exampleStore.getitem 7 = .error (.keyError 7))
  injection h' with h''
  exact GraphError.noConfusion h''

/-- C8 amended: `__getitem__` has the same failure domain as `neighbors` —
it fails exactly on nodes absent from the store — but it signals the generic
lookup failure (`KeyError`), while `neighbors` signals `NodeNotFound`. -/
theorem getitem_error_kind (g : AntiGraph) (n : Nat) (h : n ∉ g.nodes) :
    g.getitem n = .error (.keyError n) ∧
    g.neighbors n = .error (.nodeNotFound n) := by
  have hl : g.adj.lookup n = none := (lookup_eq_none_iff g.adj n).mpr h
  exact ⟨by simp [AntiGraph.getitem, hl], by simp [AntiGraph.neighbors, hl]⟩

theorem getitem_error_kind_witness :
    (9 ∉ exampleStore.nodes) ∧
      (exampleStore.getitem 9 = .error (.keyError 9) ∧
        exampleStore.neighbors 9 = .error (.nodeNotFound 9)) :=
  ⟨by decide, getitem_error_kind exampleStore 9 (by decide)⟩

/-- C9: for a present node `n`, `__getitem__` returns a mapping whose key set
is exactly the derived neighbor set `AllNodes − SparseSet(n) − {n}` (each key
once) and whose every value is the canonical unit-weight record
`{weight: 1}`. -/
theorem getitem_unit_weight (g : AntiGraph) (n : Nat) (s : List Nat)
    (hnd : g.nodes.Nodup) (hs : g.adj.lookup n = some s) :
    ∃ m, g.getitem n = .ok m ∧
      (m.map Prod.fst).Nodup ∧
      (∀ v, v ∈ m.map Prod.fst ↔ v ∈ g.nodes ∧ v ∉ s ∧ v ≠ n) ∧
      (∀ p ∈ m, p.2 = all_edge_dict) ∧
      all_edge_dict.lookup "weight" = some 1 := by
  refine ⟨(derivedOf g s n).map (fun v => (v, all_edge_dict)), ?_, ?_, ?_, ?_, ?_⟩
  · simp [AntiGraph.getitem, hs]
  · rw [map_fst_pairs]
    exact nodup_derivedOf g s n hnd
  · intro v
    rw [map_fst_pairs]
    exact mem_derivedOf g s n v
  · intro p hp
    obtain ⟨v, _, rfl⟩ := List.mem_map.mp hp
    rfl
  · simp [all_edge_dict]

theorem getitem_unit_weight_witness :
    exampleStore.nodes.Nodup ∧ exampleStore.adj.lookup 1 = some [0] ∧
      ∃ m, exampleStore.getitem 1 = .ok m ∧
        (m.map Prod.fst).Nodup ∧
        (∀ v, v ∈ m.map Prod.fst ↔ v ∈ exampleStore.nodes ∧ v ∉ [0] ∧ v ≠ 1) ∧
        (∀ p ∈ m, p.2 = all_edge_dict) ∧
        all_edge_dict.lookup "weight" = some 1 :=
  ⟨by decide, by decide, getitem_unit_weight exampleStore 1 [0] (by decide) (by decide)⟩

theorem map_fst_tag {β : Type} (l : List Nat) (f : Nat → β) :
    (l.map (fun n => (n, f n))).map Prod.fst = l := by
  induction l with
  | nil => rfl
  | cons a t ih => simp [ih]

/-- C5: the bulk form over an explicit subset `S` of the stored nodes emits
exactly one `(n, degree)` pair per member of `S`, in `S`'s order, with each
degree computed against the complete node universe of the store
(`degreeOfFull`); the default form emits one pair per node of the universe
in store order, with the same per-node degree. -/
theorem d_iter_subset (g : AntiGraph) (S : List Nat)
    (hS : ∀ n ∈ S, n ∈ g.nodes) :
    g.d_iter (some S) none = S.map (fun n => (n, degreeOfFull g n)) ∧
    g.d_iter none none = g.nodes.map (fun n => (n, degreeOfFull g n)) := by
  constructor
  · have hfilter : S.filter (fun n => decide (n ∈ g.nodes)) = S :=
      List.filter_eq_self.mpr (fun a ha => by simpa using hS a ha)
    simp [AntiGraph.d_iter, AntiGraph.nodes_nbrs, hfilter, List.map_map,
      degreeOfFull, Function.comp]
  · simp [AntiGraph.d_iter, AntiGraph.nodes_nbrs, List.map_map,
      degreeOfFull, Function.comp]

theorem d_iter_subset_witness :
    (∀ n ∈ [2, 0], n ∈ exampleStore.nodes) ∧
      (exampleStore.d_iter (some [2, 0]) none
          = [2, 0].map (fun n => (n, degreeOfFull exampleStore n)) ∧
        exampleStore.d_iter none none
          = exampleStore.nodes.map (fun n => (n, degreeOfFull exampleStore n))) :=
  ⟨by decide, d_iter_subset exampleStore [2, 0] (by decide)⟩

/-- C6: `adjacency` yields exactly one pair per node of the store's universe,
in the universe's order, and the second component of each pair is the derived
neighbor set `AllNodes − SparseSet(n) − {n}` (each member once). -/
theorem adjacency_pairs (g : AntiGraph) (hnd : g.nodes.Nodup) :
    (g.adjacency).map Prod.fst = g.nodes ∧
    ∀ p ∈ g.adjacency, p.2.Nodup ∧
      ∀ v, (v ∈ p.2 ↔
        v ∈ g.nodes ∧ v ∉ (g.adj.lookup p.1).getD [] ∧ v ≠ p.1) := by
  constructor
  · exact map_fst_tag g.nodes _
  · intro p hp
    obtain ⟨n, hn, rfl⟩ := List.mem_map.mp hp
    exact ⟨nodup_derivedOf g _ n hnd, fun v => mem_derivedOf g _ n v⟩

theorem adjacency_pairs_witness :
    exampleStore.nodes.Nodup ∧
      ((exampleStore.adjacency).map Prod.fst = exampleStore.nodes ∧
        ∀ p ∈ exampleStore.adjacency, p.2.Nodup ∧
          ∀ v, (v ∈ p.2 ↔
            v ∈ exampleStore.nodes ∧
              v ∉ (exampleStore.adj.lookup p.1).getD [] ∧ v ≠ p.1)) :=
  ⟨by decide, adjacency_pairs exampleStore (by decide)⟩

theorem cv_lookup (V : List Nat) (tA : Nat → List Nat) (n : Nat)
    (hn : n ∈ V) :
    (complementView V tA).adj.lookup n
      = some (V.filter (fun v => decide (v ≠ n ∧ v ∉ tA n))) :=
  lookup_map_self V _ n hn

theorem cv_nodes (V : List Nat) (tA : Nat → List Nat) :
    (complementView V tA).nodes = V :=
  map_fst_tag V _

theorem cv_derived_length (V : List Nat) (tA : Nat → List Nat)
    (hV : V.Nodup) (hsub : ∀ m ∈ V, ∀ v ∈ tA m, v ∈ V)
    (hnd : ∀ m ∈ V, (tA m).Nodup) (hirr : ∀ m ∈ V, m ∉ tA m)
    (n : Nat) (hn : n ∈ V) :
    (derivedOf (complementView V tA)
      (V.filter (fun v => decide (v ≠ n ∧ v ∉ tA n))) n).length
      = (tA n).length := by
  have hmem : ∀ v, v ∈ derivedOf (complementView V tA)
      (V.filter (fun v => decide (v ≠ n ∧ v ∉ tA n))) n ↔ v ∈ tA n := by
    intro v
    rw [mem_derivedOf, cv_nodes]
    constructor
    · rintro ⟨hvV, hvs, hvn⟩
      by_contra hvt
      exact hvs (List.mem_filter.mpr ⟨hvV, by simp [hvn, hvt]⟩)
    · intro hvt
      have hvV : v ∈ V := hsub n hn v hvt
      have hvn : v ≠ n := fun he => hirr n hn (he ▸ hvt)
      refine ⟨hvV, ?_, hvn⟩
      intro hvs
      have hpred := (List.mem_filter.mp hvs).2
      simp [hvt] at hpred
  have hdup : (derivedOf (complementView V tA)
      (V.filter (fun v => decide (v ≠ n ∧ v ∉ tA n))) n).Nodup :=
    nodup_derivedOf _ _ _ (by rw [cv_nodes]; exact hV)
  exact ((List.perm_ext_iff_of_nodup hdup (hnd n hn)).mpr hmem).length_eq

/-- C4: for a simple dense graph given by node list `V` and true-adjacency
`tA`, the complement view built from its non-edges reports the dense degree
at every node, and the bulk degree sum over the view equals the dense degree
sum. -/
theorem complement_degree_eq (V : List Nat) (tA : Nat → List Nat)
    (hV : V.Nodup) (hsub : ∀ m ∈ V, ∀ v ∈ tA m, v ∈ V)
    (hnd : ∀ m ∈ V, (tA m).Nodup) (hirr : ∀ m ∈ V, m ∉ tA m) :
    (∀ n ∈ V, (complementView V tA).degree n none
        = some (denseDegree tA n)) ∧
    (((complementView V tA).d_iter none none).map Prod.snd).sum
      = (V.map (denseDegree tA)).sum := by
  have hfull : ∀ n ∈ V, degreeOfFull (complementView V tA) n
      = denseDegree tA n := by
    intro n hn
    have hs := cv_lookup V tA n hn
    rw [degreeOfFull, derivedList_eq _ n _ hs,
      if_neg (self_not_mem_derivedOf _ _ _), Nat.add_zero,
      cv_derived_length V tA hV hsub hnd hirr n hn]
    rfl
  constructor
  · intro n hn
    have hs := cv_lookup V tA n hn
    have hd : (complementView V tA).degree n none
        = some (degreeOfFull (complementView V tA) n) := by
      simp only [AntiGraph.degree, hs, degreeOfFull, derivedList_eq _ n _ hs]
    rw [hd, hfull n hn]
  · have h1 : (complementView V tA).d_iter none none
        = (complementView V tA).nodes.map
            (fun n => (n, degreeOfFull (complementView V tA) n)) := by
      simp [AntiGraph.d_iter, AntiGraph.nodes_nbrs, List.map_map,
        degreeOfFull, Function.comp]
    rw [h1, cv_nodes, List.map_map]
    refine congrArg List.sum (List.map_congr_left ?_)
    intro n hn
    show degreeOfFull (complementView V tA) n = denseDegree tA n
    exact hfull n hn

theorem complement_degree_eq_witness :
    ([0, 1, 2, 3].Nodup ∧
      (∀ m ∈ [0, 1, 2, 3], ∀ v ∈ exDense m, v ∈ [0, 1, 2, 3]) ∧
      (∀ m ∈ [0, 1, 2, 3], (exDense m).Nodup) ∧
      (∀ m ∈ [0, 1, 2, 3], m ∉ exDense m)) ∧
    ((∀ n ∈ [0, 1, 2, 3], (complementView [0, 1, 2, 3] exDense).degree n none
        = some (denseDegree exDense n)) ∧
      (((complementView [0, 1, 2, 3] exDense).d_iter none none).map
        Prod.snd).sum = ([0, 1, 2, 3].map (denseDegree exDense)).sum) :=
  ⟨⟨by decide, by decide, by decide, by decide⟩,
    complement_degree_eq [0, 1, 2, 3] exDense
      (by decide) (by decide) (by decide) (by decide)⟩

end AntiGraphSpec
